import Mathlib

/-!
Verification of the `GLUtil` utility class (`src/GLUtil.ts`), centred on the
structural deep-clone algorithm `deepClone`, the classifier predicate
`isClassDefinition`, and the string helper `padLeft`.

Runtime values are modelled as the inductive type `JsValue`.  Every mutable
container (array, Map, Set, function object, plain object) carries an
identity tag `id : Nat` standing for its reference identity on the heap:
two container occurrences with the same tag denote the very same heap
object, so shared mutable storage between two values is witnessed by a
common container tag.  `deepClone` threads a fresh-tag counter `n`; every
container it allocates receives a tag `≥ n`, mirroring the allocations
(`[]`, `new Map()`, `new Set()`, the wrapper function, `Object.create(null)`)
performed by the source.
-/

namespace GLUtil

/-- A JavaScript runtime value, as discriminated by `deepClone`:
nullish markers, the three primitive families, arrays, `Map` instances
(`entries` in insertion order), `Set` instances (`members` in insertion
order), function objects (`code` identifies the underlying behaviour,
`proto` is the value of the `prototype` property, `props` the own
enumerable properties in enumeration order), plain objects (`hasOwnFn`
records whether `value.hasOwnProperty` is a function; `ownProps` the own
enumerable properties, `inheritedProps` the enumerable properties visible
through the prototype chain), and `symV` for primitives of unrecognized
shape (e.g. symbols), which match none of the branches. -/
inductive JsValue where
  | undef : JsValue
  | nullV : JsValue
  | boolV : Bool → JsValue
  | numV : Int → JsValue
  | strV : String → JsValue
  | arrV : Nat → List JsValue → JsValue
  | mapV : Nat → List (JsValue × JsValue) → JsValue
  | setV : Nat → List JsValue → JsValue
  | funcV : Nat → Nat → JsValue → List (String × JsValue) → JsValue
  | objV : Nat → Bool → List (String × JsValue) → List (String × JsValue) → JsValue
  | symV : Nat → JsValue
deriving Repr

mutual

/-- Shallow embedding of `GLUtil.deepClone` (src/GLUtil.ts:143-206).
`hasMap`/`hasSet` model the capability probes `$global.Map !== undefined`
and `$global.Set !== undefined`; `n` is the fresh-identity counter.
Branches, in source order:
nullish/boolean and string/number values are returned as-is; arrays are
rebuilt element by element through a recursive call; a `Map` is rebuilt
with `newMap.set(k, v)` — key and value references copied, no recursive
call; a `Set` likewise via `newSet.add(v)`; a function becomes a fresh
wrapper forwarding its invocation (same `code`), sharing `prototype` and
copying own enumerable properties by plain assignment; a plain object
becomes `Object.create(null)` (bare: no prototype, hence no
`hasOwnProperty` and no inherited properties) filled with recursive clones
of the own enumerable properties when `hasOwnProperty` is a function, and
of all visible (own then inherited) enumerable properties otherwise;
anything else falls through to `undefined`.  A `Map`/`Set` met while the
corresponding capability is absent falls to the plain-object branch,
where it exposes no own enumerable properties. -/
def deepClone (hasMap hasSet : Bool) (n : Nat) (v : JsValue) : Nat × JsValue :=
  match v with
  | .undef => (n, .undef)
  | .nullV => (n, .nullV)
  | .boolV b => (n, .boolV b)
  | .numV x => (n, .numV x)
  | .strV s => (n, .strV s)
  | .arrV _ elems =>
      let r := deepCloneList hasMap hasSet (n + 1) elems
      (r.1, .arrV n r.2)
  | .mapV _ entries =>
      if hasMap then (n + 1, .mapV n entries)
      else (n + 1, .objV n false [] [])
  | .setV _ members =>
      if hasSet then (n + 1, .setV n members)
      else (n + 1, .objV n false [] [])
  | .funcV _ code proto props => (n + 1, .funcV n code proto props)
  | .objV _ hasOwnFn own inh =>
      if hasOwnFn then
        let r := deepCloneProps hasMap hasSet (n + 1) own
        (r.1, .objV n false r.2 [])
      else
        let r1 := deepCloneProps hasMap hasSet (n + 1) own
        let r2 := deepCloneProps hasMap hasSet r1.1 inh
        (r2.1, .objV n false (r1.2 ++ r2.2) [])
  | .symV _ => (n, .undef)
termination_by sizeOf v

/-- The element loop of the array branch (src/GLUtil.ts:152-156):
clones the elements in order, threading the fresh-identity counter. -/
def deepCloneList (hasMap hasSet : Bool) (n : Nat) (vs : List JsValue) :
    Nat × List JsValue :=
  match vs with
  | [] => (n, [])
  | v :: rest =>
      let r1 := deepClone hasMap hasSet n v
      let r2 := deepCloneList hasMap hasSet r1.1 rest
      (r2.1, r1.2 :: r2.2)
termination_by sizeOf vs

/-- The property loop of the plain-object branch (src/GLUtil.ts:193-202):
clones the property values in enumeration order, keeping the keys. -/
def deepCloneProps (hasMap hasSet : Bool) (n : Nat) (ps : List (String × JsValue)) :
    Nat × List (String × JsValue) :=
  match ps with
  | [] => (n, [])
  | (k, v) :: rest =>
      let r1 := deepClone hasMap hasSet n v
      let r2 := deepCloneProps hasMap hasSet r1.1 rest
      (r2.1, (k, r1.2) :: r2.2)
termination_by sizeOf ps

end

mutual

/-- All container objects (arrays, Maps, Sets, function objects, plain
objects) occurring inside a value, the value itself included when it is a
container.  A container stands for a heap object, so this is the list of
heap objects reachable from the value. -/
def subContainers (v : JsValue) : List JsValue :=
  match v with
  | .undef => []
  | .nullV => []
  | .boolV _ => []
  | .numV _ => []
  | .strV _ => []
  | .arrV id elems => .arrV id elems :: subContainersList elems
  | .mapV id entries => .mapV id entries :: subContainersEntries entries
  | .setV id members => .setV id members :: subContainersList members
  | .funcV id code proto props =>
      .funcV id code proto props :: (subContainers proto ++ subContainersProps props)
  | .objV id hasOwnFn own inh =>
      .objV id hasOwnFn own inh :: (subContainersProps own ++ subContainersProps inh)
  | .symV _ => []
termination_by sizeOf v

/-- Containers reachable from a list of values. -/
def subContainersList (vs : List JsValue) : List JsValue :=
  match vs with
  | [] => []
  | v :: rest => subContainers v ++ subContainersList rest
termination_by sizeOf vs

/-- Containers reachable from a list of Map entries (keys and values). -/
def subContainersEntries (es : List (JsValue × JsValue)) : List JsValue :=
  match es with
  | [] => []
  | (k, v) :: rest => subContainers k ++ subContainers v ++ subContainersEntries rest
termination_by sizeOf es

/-- Containers reachable from a property list. -/
def subContainersProps (ps : List (String × JsValue)) : List JsValue :=
  match ps with
  | [] => []
  | (_, v) :: rest => subContainers v ++ subContainersProps rest
termination_by sizeOf ps

end

/-- The identity tag of a container value, `none` for non-containers. -/
def containerId (v : JsValue) : Option Nat :=
  match v with
  | .arrV id _ => some id
  | .mapV id _ => some id
  | .setV id _ => some id
  | .funcV id _ _ _ => some id
  | .objV id _ _ _ => some id
  | _ => none

/-- Identity tags of all heap objects reachable from a value.  Two values
share mutable storage exactly when these lists intersect. -/
def containerIds (v : JsValue) : List Nat :=
  (subContainers v).filterMap containerId

/-- A value matches one of the shapes `deepClone` recognizes
(nullish / boolean / number / string / sequence / mapping / set /
callable / record); only `symV` values fall through every branch of the
source to the final `return undefined`. -/
def isRecognizedShape (v : JsValue) : Bool :=
  match v with
  | .symV _ => false
  | _ => true

/-- JavaScript `ToBoolean` on the modelled values: `undefined`, `null`,
`false`, `0` and `""` are falsy, every other value (all objects and
functions included) is truthy. -/
def truthy (v : JsValue) : Bool :=
  match v with
  | .undef => false
  | .nullV => false
  | .boolV b => b
  | .numV x => x != 0
  | .strV s => s != ""
  | _ => true

/-- The observations `isClassDefinition` makes of its argument:
the result of `typeof value`, the truthiness of the value itself, the
value of its `prototype` property, and whether
`value.prototype.constructor === value` holds in the heap. -/
structure ClassCandidate where
  typeofTag : String
  valueTruthy : Bool
  proto : JsValue
  protoConstructorEq : Bool

/-- Shallow embedding of `GLUtil.isClassDefinition` (src/GLUtil.ts:46-56).
`isIE11` models the `Trident/7.0`/`rv:11.0` probe of the host's version
string; on a non-legacy host it is `false`.  `typeCheck` is
`typeof value === "function"`, or on IE11 also `typeof value === "object"`;
`constructorCheck` is `value && value.prototype ?
value.prototype.constructor === value : false`, i.e. the constructor
comparison guarded by the truthiness of the value and of its prototype. -/
def isClassDefinition (isIE11 : Bool) (c : ClassCandidate) : Bool :=
  let typeCheck :=
    if c.typeofTag = "function" then true
    else isIE11 && c.typeofTag = "object"
  let constructorCheck :=
    if c.valueTruthy && truthy c.proto then c.protoConstructorEq else false
  typeCheck && constructorCheck

/-- Modelled from the spec's words, for comparison with the source's
`isClassDefinition`: "true only if the value is invokable AND its own
`prototype.constructor` refers back to itself", with the claim's false
cases "not invokable", "prototype is absent", "prototype.constructor is
not value".  Invokable is `typeof value === "function"`; an absent
prototype is the `undefined` value. -/
def classDefinitionSpec (c : ClassCandidate) : Prop :=
  c.typeofTag = "function" ∧ c.proto ≠ JsValue.undef ∧ c.protoConstructorEq = true

/-- JavaScript `String.prototype.substring(a, b)` on a string modelled as
a character list: both indices are clamped to `[0, length]` and swapped
when out of order, then the characters between them are returned. -/
def jsSubstring (s : List Char) (a b : Nat) : List Char :=
  let a2 := min a s.length
  let b2 := min b s.length
  if a2 ≤ b2 then (s.take b2).drop a2 else (s.take a2).drop b2

/-- The `while (str.length < targetLength) str = padWith + str;` loop of
`padLeft` (src/GLUtil.ts:276-278), with explicit fuel; `none` models
non-termination (the loop never exits when `padWith` is empty and the
string is short of the target). -/
def padLoop (padWith : List Char) (targetLength : Nat) :
    Nat → List Char → Option (List Char)
  | 0, str => if str.length < targetLength then none else some str
  | fuel + 1, str =>
      if str.length < targetLength then
        padLoop padWith targetLength fuel (padWith ++ str)
      else some str

/-- Shallow embedding of `GLUtil.padLeft` (src/GLUtil.ts:275-283): pad on
the left until the length reaches the target, then, when the length
overshoots the target, truncate via
`str.substring(str.length - targetLength, str.length - 1)`.  The fuel
`targetLength + 1` is sufficient for every terminating run of the source
loop, since each iteration grows the string by at least one character. -/
def padLeft (str : List Char) (targetLength : Nat) (padWith : List Char) :
    Option (List Char) :=
  (padLoop padWith targetLength (targetLength + 1) str).map fun s =>
    if targetLength < s.length then
      jsSubstring s (s.length - targetLength) (s.length - 1)
    else s

theorem deepCloneList_length (hm hs : Bool) (n : Nat) (vs : List JsValue) :
    ((deepCloneList hm hs n vs).2).length = vs.length := by
  induction vs generalizing n with
  | nil => simp [deepCloneList]
  | cons v rest ih => simp [deepCloneList, ih]

theorem deepCloneList_elem (hm hs : Bool) (n : Nat) (vs : List JsValue) :
    ∀ p ∈ ((deepCloneList hm hs n vs).2).zip vs,
      ∃ m, p.1 = (deepClone hm hs m p.2).2 := by
  induction vs generalizing n with
  | nil => simp [deepCloneList]
  | cons v rest ih =>
    intro p hp
    rw [deepCloneList] at hp
    simp only [List.zip_cons_cons, List.mem_cons] at hp
    rcases hp with h | h
    · exact ⟨n, by rw [h]⟩
    · exact ih _ p h

theorem deepCloneProps_fst (hm hs : Bool) (n : Nat) (ps : List (String × JsValue)) :
    ((deepCloneProps hm hs n ps).2).map Prod.fst = ps.map Prod.fst := by
  induction ps generalizing n with
  | nil => simp [deepCloneProps]
  | cons p rest ih =>
    obtain ⟨k, v⟩ := p
    simp [deepCloneProps, ih]

theorem deepCloneProps_elem (hm hs : Bool) (n : Nat) (ps : List (String × JsValue)) :
    ∀ p ∈ ((deepCloneProps hm hs n ps).2).zip ps,
      p.1.1 = p.2.1 ∧ ∃ m, p.1.2 = (deepClone hm hs m p.2.2).2 := by
  induction ps generalizing n with
  | nil => simp [deepCloneProps]
  | cons q rest ih =>
    obtain ⟨k, v⟩ := q
    intro p hp
    rw [deepCloneProps] at hp
    simp only [List.zip_cons_cons, List.mem_cons] at hp
    rcases hp with h | h
    · exact ⟨by rw [h], n, by rw [h]⟩
    · exact ih _ p h

theorem deepCloneProps_append (hm hs : Bool) (n : Nat)
    (a b : List (String × JsValue)) :
    deepCloneProps hm hs n (a ++ b) =
      ((deepCloneProps hm hs (deepCloneProps hm hs n a).1 b).1,
       (deepCloneProps hm hs n a).2 ++
         (deepCloneProps hm hs (deepCloneProps hm hs n a).1 b).2) := by
  induction a generalizing n with
  | nil => simp [deepCloneProps]
  | cons q rest ih =>
    obtain ⟨k, v⟩ := q
    simp [deepCloneProps, ih]

/-- C6: `deepClone` is the identity on booleans, numbers, strings,
`undefined` and `null`: it returns the very value it was given (the
source returns `sourceObject` itself in these branches,
src/GLUtil.ts:144-149), and allocates nothing (the identity counter is
unchanged). -/
theorem deepClone_primitive_identity (hm hs : Bool) (n : Nat) :
    (∀ b, deepClone hm hs n (.boolV b) = (n, .boolV b)) ∧
    (∀ x, deepClone hm hs n (.numV x) = (n, .numV x)) ∧
    (∀ s, deepClone hm hs n (.strV s) = (n, .strV s)) ∧
    deepClone hm hs n .undef = (n, .undef) ∧
    deepClone hm hs n .nullV = (n, .nullV) := by
  refine ⟨fun b => ?_, fun x => ?_, fun s => ?_, ?_, ?_⟩ <;> rw [deepClone]

/-- C7: `deepClone` is a total function of its argument (it is a plain
Lean function on all of `JsValue`, mirroring that the source has no
`throw` and no error outcome), and on every value of unrecognized shape —
one that matches none of the nullish / boolean / number / string /
sequence / mapping / set / callable / record branches — it falls through
to `return undefined` (src/GLUtil.ts:205). -/
theorem deepClone_total_unrecognized (hm hs : Bool) (n : Nat) (v : JsValue)
    (h : isRecognizedShape v = false) : deepClone hm hs n v = (n, .undef) := by
  cases v with
  | symV id => rw [deepClone]
  | _ => simp [isRecognizedShape] at h

/-- Witness for C7 at the concrete unrecognized value `symV 0`. -/
theorem deepClone_total_unrecognized_witness :
    isRecognizedShape (.symV 0) = false ∧
      deepClone true true 5 (.symV 0) = (5, .undef) :=
  ⟨rfl, deepClone_total_unrecognized true true 5 (.symV 0) rfl⟩

/-- C5: cloning an array yields a new sequence (fresh identity `n`) of the
same length whose `i`-th element is the recursive clone of the source's
`i`-th element, in the same order; concretely, cloning
`[1, [2, 3], "s"]` yields `[1, [2, 3], "s"]` with the inner sequence a
distinct object (identity 11, not the source's identity 1). -/
theorem deepClone_array (hm hs : Bool) (n id : Nat) (elems : List JsValue) :
    (∃ es, (deepClone hm hs n (.arrV id elems)).2 = .arrV n es ∧
      es.length = elems.length ∧
      ∀ p ∈ es.zip elems, ∃ m, p.1 = (deepClone hm hs m p.2).2) ∧
    (deepClone true true 10 (.arrV 0 [.numV 1, .arrV 1 [.numV 2, .numV 3], .strV "s"])
        = (12, .arrV 10 [.numV 1, .arrV 11 [.numV 2, .numV 3], .strV "s"]) ∧
      (11 : Nat) ≠ 1) := by
  refine ⟨⟨(deepCloneList hm hs (n + 1) elems).2, ?_, deepCloneList_length hm hs _ _,
    deepCloneList_elem hm hs _ _⟩, ?_, by simp⟩
  · rw [deepClone]
  · simp [deepClone, deepCloneList]

/-- Witness for C5: the general part applied to the one-element array
`[7]` with fresh counter 5. -/
theorem deepClone_array_witness :
    ∃ es, (deepClone true true 5 (.arrV 0 [.numV 7])).2 = .arrV 5 es ∧
      es.length = [JsValue.numV 7].length ∧
      ∀ p ∈ es.zip [JsValue.numV 7], ∃ m, p.1 = (deepClone true true m p.2).2 :=
  (deepClone_array true true 5 0 [.numV 7]).1

/-- C4: cloning a plain record yields a bare record (`Object.create(null)`:
no prototype, hence no `hasOwnProperty` function and no inherited
properties) with fresh identity `n`.  When the source exposes a usable
`hasOwnProperty`, the keys are exactly its own enumerable keys and each
value is cloned recursively; when it does not, the clone falls back to
all visible keys (own then inherited), each value cloned recursively. -/
theorem deepClone_record (hm hs : Bool) (n id : Nat)
    (own inh : List (String × JsValue)) :
    (∃ ps, (deepClone hm hs n (.objV id true own inh)).2 = .objV n false ps [] ∧
      ps.map Prod.fst = own.map Prod.fst ∧
      ∀ p ∈ ps.zip own,
        p.1.1 = p.2.1 ∧ ∃ m, p.1.2 = (deepClone hm hs m p.2.2).2) ∧
    (∃ ps, (deepClone hm hs n (.objV id false own inh)).2 = .objV n false ps [] ∧
      ps.map Prod.fst = (own ++ inh).map Prod.fst ∧
      ∀ p ∈ ps.zip (own ++ inh),
        p.1.1 = p.2.1 ∧ ∃ m, p.1.2 = (deepClone hm hs m p.2.2).2) := by
  constructor
  · exact ⟨(deepCloneProps hm hs (n + 1) own).2, by simp [deepClone],
      deepCloneProps_fst hm hs _ _, deepCloneProps_elem hm hs _ _⟩
  · refine ⟨(deepCloneProps hm hs (n + 1) (own ++ inh)).2, ?_,
      deepCloneProps_fst hm hs _ _, deepCloneProps_elem hm hs _ _⟩
    simp [deepClone, deepCloneProps_append]

/-- Witness for C4 at a concrete record with one own and one inherited
property. -/
theorem deepClone_record_witness :
    ∃ ps, (deepClone true true 5
        (.objV 0 true [("a", .numV 1)] [("b", .numV 2)])).2 = .objV 5 false ps [] ∧
      ps.map Prod.fst = [("a", JsValue.numV 1)].map Prod.fst ∧
      ∀ p ∈ ps.zip [("a", JsValue.numV 1)],
        p.1.1 = p.2.1 ∧ ∃ m, p.1.2 = (deepClone true true m p.2.2).2 :=
  (deepClone_record true true 5 0 [("a", .numV 1)] [("b", .numV 2)]).1

/-- C1 fails on the code: the Map branch (src/GLUtil.ts:159-165) runs
`newMap.set(k, v)` with no recursive `deepClone` call, so the clone of
`Map([("a", [1]), ("b", 2)])` is a fresh Map (identity 10, insertion
order preserved) whose key and value references are the originals: the
array value keeps identity 1, i.e. it is the very same heap object in
source and clone, not a recursive clone (a clone would carry a fresh
identity ≥ 10). -/
theorem deepClone_map_inserts_references :
    deepClone true true 10
        (.mapV 0 [(.strV "a", .arrV 1 [.numV 1]), (.strV "b", .numV 2)])
      = (11, .mapV 10 [(.strV "a", .arrV 1 [.numV 1]), (.strV "b", .numV 2)]) ∧
    1 ∈ containerIds (.mapV 0 [(.strV "a", .arrV 1 [.numV 1]), (.strV "b", .numV 2)]) ∧
    1 ∈ containerIds ((deepClone true true 10
        (.mapV 0 [(.strV "a", .arrV 1 [.numV 1]), (.strV "b", .numV 2)])).2) := by
  refine ⟨?_, ?_, ?_⟩ <;>
    simp [deepClone, containerIds, subContainers, subContainersEntries,
      subContainersList, subContainersProps, containerId]

/-- C2 fails on the code: the Set branch (src/GLUtil.ts:166-172) runs
`newSet.add(v)` with no recursive `deepClone` call, so the clone of a Set
holding the array `[5]` (identity 4) contains that very array: identity 4
is reachable from both the original and the clone, hence mutating the
array member of the clone is observable through the original. -/
theorem deepClone_set_shares_storage :
    (deepClone true true 20 (.setV 3 [.arrV 4 [.numV 5]])).2
      = .setV 20 [.arrV 4 [.numV 5]] ∧
    4 ∈ containerIds (.setV 3 [.arrV 4 [.numV 5]]) ∧
    4 ∈ containerIds ((deepClone true true 20 (.setV 3 [.arrV 4 [.numV 5]])).2) := by
  refine ⟨?_, ?_, ?_⟩ <;>
    simp [deepClone, containerIds, subContainers, subContainersEntries,
      subContainersList, subContainersProps, containerId]

/-- C3 fails on the code: the function branch (src/GLUtil.ts:174-188)
copies own enumerable properties by plain assignment
(`fn[key] = sourceFunctionObject[key]`), not by recursive clone.  The
clone of a function carrying `tag = "x"` and `box = [9]` is a fresh
wrapper (identity 10) with the same behaviour (`code` 7, invocation
forwarded) and the shared prototype (identity 1, as the claim says), but
its `box` property is the original array (identity 2 in both source and
clone), not a recursive clone. -/
theorem deepClone_function_props_by_reference :
    deepClone true true 10
        (.funcV 0 7 (.objV 1 true [] []) [("tag", .strV "x"), ("box", .arrV 2 [.numV 9])])
      = (11, .funcV 10 7 (.objV 1 true [] [])
          [("tag", .strV "x"), ("box", .arrV 2 [.numV 9])]) ∧
    2 ∈ containerIds
        (.funcV 0 7 (.objV 1 true [] []) [("tag", .strV "x"), ("box", .arrV 2 [.numV 9])]) ∧
    2 ∈ containerIds ((deepClone true true 10
        (.funcV 0 7 (.objV 1 true [] [])
          [("tag", .strV "x"), ("box", .arrV 2 [.numV 9])])).2) := by
  refine ⟨?_, ?_, ?_⟩ <;>
    simp [deepClone, containerIds, subContainers, subContainersEntries,
      subContainersList, subContainersProps, containerId]

theorem subContainersProps_append (a b : List (String × JsValue)) :
    subContainersProps (a ++ b) = subContainersProps a ++ subContainersProps b := by
  induction a with
  | nil => simp [subContainersProps]
  | cons q rest ih =>
    obtain ⟨k, v⟩ := q
    simp [subContainersProps, ih]

mutual

theorem deepClone_mono (hm hs : Bool) (n : Nat) (v : JsValue) :
    n ≤ (deepClone hm hs n v).1 := by
  cases v with
  | undef => simp [deepClone]
  | nullV => simp [deepClone]
  | boolV b => simp [deepClone]
  | numV x => simp [deepClone]
  | strV s => simp [deepClone]
  | arrV id elems =>
      have h := deepCloneList_mono hm hs (n + 1) elems
      simp only [deepClone]
      omega
  | mapV id entries =>
      simp only [deepClone]
      split <;> omega
  | setV id members =>
      simp only [deepClone]
      split <;> omega
  | funcV id code proto props =>
      simp only [deepClone]
      omega
  | objV id hasOwnFn own inh =>
      have h1 := deepCloneProps_mono hm hs (n + 1) own
      have h2 := deepCloneProps_mono hm hs (deepCloneProps hm hs (n + 1) own).1 inh
      simp only [deepClone]
      split <;> omega
  | symV id => simp [deepClone]
termination_by sizeOf v

theorem deepCloneList_mono (hm hs : Bool) (n : Nat) (vs : List JsValue) :
    n ≤ (deepCloneList hm hs n vs).1 := by
  cases vs with
  | nil => simp [deepCloneList]
  | cons v rest =>
      have h1 := deepClone_mono hm hs n v
      have h2 := deepCloneList_mono hm hs (deepClone hm hs n v).1 rest
      simp only [deepCloneList]
      omega
termination_by sizeOf vs

theorem deepCloneProps_mono (hm hs : Bool) (n : Nat) (ps : List (String × JsValue)) :
    n ≤ (deepCloneProps hm hs n ps).1 := by
  cases ps with
  | nil => simp [deepCloneProps]
  | cons q rest =>
      obtain ⟨k, v⟩ := q
      have h1 := deepClone_mono hm hs n v
      have h2 := deepCloneProps_mono hm hs (deepClone hm hs n v).1 rest
      simp only [deepCloneProps]
      omega
termination_by sizeOf ps

end

mutual

theorem deepClone_frame (hm hs : Bool) (n : Nat) (v : JsValue) :
    ∀ c ∈ subContainers (deepClone hm hs n v).2, ∀ i,
      containerId c = some i → i < n → c ∈ subContainers v := by
  cases v with
  | undef => simp [deepClone, subContainers]
  | nullV => simp [deepClone, subContainers]
  | boolV b => simp [deepClone, subContainers]
  | numV x => simp [deepClone, subContainers]
  | strV s => simp [deepClone, subContainers]
  | arrV id elems =>
      intro c hc i hci hlt
      simp only [deepClone] at hc
      rw [subContainers] at hc
      rcases List.mem_cons.mp hc with h | h
      · subst h
        simp [containerId] at hci
        omega
      · have hsrc := deepCloneList_frame hm hs (n + 1) elems c h i hci (by omega)
        rw [subContainers]
        exact List.mem_cons_of_mem _ hsrc
  | mapV id entries =>
      intro c hc i hci hlt
      by_cases hM : hm <;> simp [deepClone, hM] at hc
      · rw [subContainers] at hc
        rcases List.mem_cons.mp hc with h | h
        · subst h
          simp [containerId] at hci
          omega
        · rw [subContainers]
          exact List.mem_cons_of_mem _ h
      · rw [subContainers] at hc
        simp [subContainersProps] at hc
        subst hc
        simp [containerId] at hci
        omega
  | setV id members =>
      intro c hc i hci hlt
      by_cases hS : hs <;> simp [deepClone, hS] at hc
      · rw [subContainers] at hc
        rcases List.mem_cons.mp hc with h | h
        · subst h
          simp [containerId] at hci
          omega
        · rw [subContainers]
          exact List.mem_cons_of_mem _ h
      · rw [subContainers] at hc
        simp [subContainersProps] at hc
        subst hc
        simp [containerId] at hci
        omega
  | funcV id code proto props =>
      intro c hc i hci hlt
      simp only [deepClone] at hc
      rw [subContainers] at hc
      rcases List.mem_cons.mp hc with h | h
      · subst h
        simp [containerId] at hci
        omega
      · rw [subContainers]
        exact List.mem_cons_of_mem _ h
  | objV id hasOwnFn own inh =>
      intro c hc i hci hlt
      have hmono := deepCloneProps_mono hm hs (n + 1) own
      by_cases hO : hasOwnFn <;> simp [deepClone, hO] at hc
      · rw [subContainers] at hc
        rcases List.mem_cons.mp hc with h | h
        · subst h
          simp [containerId] at hci
          omega
        · simp only [subContainersProps, List.append_nil] at h
          have hsrc := deepCloneProps_frame hm hs (n + 1) own c h i hci (by omega)
          rw [subContainers]
          exact List.mem_cons_of_mem _ (List.mem_append_left _ hsrc)
      · rw [subContainers] at hc
        rcases List.mem_cons.mp hc with h | h
        · subst h
          simp [containerId] at hci
          omega
        · simp only [subContainersProps, List.append_nil,
            subContainersProps_append] at h
          rcases List.mem_append.mp h with h2 | h2
          · have hsrc := deepCloneProps_frame hm hs (n + 1) own c h2 i hci (by omega)
            rw [subContainers]
            exact List.mem_cons_of_mem _ (List.mem_append_left _ hsrc)
          · have hsrc := deepCloneProps_frame hm hs
              (deepCloneProps hm hs (n + 1) own).1 inh c h2 i hci (by omega)
            rw [subContainers]
            exact List.mem_cons_of_mem _ (List.mem_append_right _ hsrc)
  | symV id => simp [deepClone, subContainers]
termination_by sizeOf v

theorem deepCloneList_frame (hm hs : Bool) (n : Nat) (vs : List JsValue) :
    ∀ c ∈ subContainersList (deepCloneList hm hs n vs).2, ∀ i,
      containerId c = some i → i < n → c ∈ subContainersList vs := by
  cases vs with
  | nil => simp [deepCloneList, subContainersList]
  | cons v rest =>
      intro c hc i hci hlt
      have hmono := deepClone_mono hm hs n v
      simp only [deepCloneList] at hc
      rw [subContainersList] at hc
      rcases List.mem_append.mp hc with h | h
      · have hsrc := deepClone_frame hm hs n v c h i hci hlt
        rw [subContainersList]
        exact List.mem_append_left _ hsrc
      · have hsrc := deepCloneList_frame hm hs (deepClone hm hs n v).1 rest c h i
          hci (by omega)
        rw [subContainersList]
        exact List.mem_append_right _ hsrc
termination_by sizeOf vs

theorem deepCloneProps_frame (hm hs : Bool) (n : Nat) (ps : List (String × JsValue)) :
    ∀ c ∈ subContainersProps (deepCloneProps hm hs n ps).2, ∀ i,
      containerId c = some i → i < n → c ∈ subContainersProps ps := by
  cases ps with
  | nil => simp [deepCloneProps, subContainersProps]
  | cons q rest =>
      obtain ⟨k, v⟩ := q
      intro c hc i hci hlt
      have hmono := deepClone_mono hm hs n v
      simp only [deepCloneProps] at hc
      rw [subContainersProps] at hc
      rcases List.mem_append.mp hc with h | h
      · have hsrc := deepClone_frame hm hs n v c h i hci hlt
        rw [subContainersProps]
        exact List.mem_append_left _ hsrc
      · have hsrc := deepCloneProps_frame hm hs (deepClone hm hs n v).1 rest c h i
          hci (by omega)
        rw [subContainersProps]
        exact List.mem_append_right _ hsrc
termination_by sizeOf ps

end

/-- C8: `deepClone` never mutates its argument — its only side effect is
the allocation of new containers.  In the embedding: the fresh-identity
counter only grows (every write targets a container allocated during the
call, with identity `≥ n`), and every container reachable from the clone
whose identity predates the call (`< n`) is literally a sub-object of the
source, i.e. an original heap object passed through unchanged — the
source's elements, entries, members and properties are never rebuilt or
altered.  (`deepClone` is a pure function of the source value, mirroring
that the source code contains no assignment to `sourceObject` or its
contents.) -/
theorem deepClone_no_mutation (hm hs : Bool) (n : Nat) (v : JsValue) :
    n ≤ (deepClone hm hs n v).1 ∧
    ∀ c ∈ subContainers (deepClone hm hs n v).2, ∀ i,
      containerId c = some i → i < n → c ∈ subContainers v :=
  ⟨deepClone_mono hm hs n v, deepClone_frame hm hs n v⟩

/-- Witness for C8 at the concrete array `[[1]]` with fresh counter 10. -/
theorem deepClone_no_mutation_witness :
    10 ≤ (deepClone true true 10 (.arrV 0 [.arrV 1 [.numV 1]])).1 ∧
    ∀ c ∈ subContainers (deepClone true true 10 (.arrV 0 [.arrV 1 [.numV 1]])).2, ∀ i,
      containerId c = some i → i < 10 →
        c ∈ subContainers (.arrV 0 [.arrV 1 [.numV 1]]) :=
  deepClone_no_mutation true true 10 (.arrV 0 [.arrV 1 [.numV 1]])

/-- C9 as stated fails on the code: `isClassDefinition` guards the
constructor comparison with the *truthiness* of `value.prototype`
(`value && value.prototype ? ... : false`, src/GLUtil.ts:54), not with
its mere presence.  For an invokable value whose `prototype` is the falsy
number `0` (present, not absent) while `prototype.constructor` does refer
back to the value (realizable in JavaScript: `f.prototype = 0` with
`Number.prototype.constructor = f`), the claim demands `true` but the
code returns `false`. -/
theorem isClassDefinition_claim_cex :
    isClassDefinition false ⟨"function", true, .numV 0, true⟩ = false ∧
    classDefinitionSpec ⟨"function", true, .numV 0, true⟩ := by
  refine ⟨rfl, rfl, by simp, rfl⟩

/-- C9 amended: on a non-legacy host, `isClassDefinition(value)` returns
true exactly when the value is invokable as a function and its
`prototype` is truthy (present and not a falsy primitive) and
`prototype.constructor` refers back to the value; it returns false
whenever the value is not invokable, or its prototype is absent or
otherwise falsy, or the constructor comparison fails.  The hypothesis is
the JavaScript invariant that every function value is truthy. -/
theorem isClassDefinition_amended (c : ClassCandidate)
    (h : c.typeofTag = "function" → c.valueTruthy = true) :
    isClassDefinition false c = true ↔
      (c.typeofTag = "function" ∧ truthy c.proto = true ∧
        c.protoConstructorEq = true) := by
  obtain ⟨t, tv, p, ce⟩ := c
  by_cases ht : t = "function"
  · have htv : tv = true := h ht
    subst htv
    by_cases hp : truthy p = true <;> simp [isClassDefinition, ht, hp]
  · simp [isClassDefinition, ht]

/-- Witness for the amended C9 at a concrete invokable candidate with an
object prototype whose `constructor` refers back. -/
theorem isClassDefinition_amended_witness :
    ((ClassCandidate.mk "function" true (.objV 0 true [] []) true).typeofTag
        = "function" →
      (ClassCandidate.mk "function" true (.objV 0 true [] []) true).valueTruthy
        = true) ∧
    (isClassDefinition false ⟨"function", true, .objV 0 true [] [], true⟩ = true ↔
      ((ClassCandidate.mk "function" true (.objV 0 true [] []) true).typeofTag
          = "function" ∧
        truthy (ClassCandidate.mk "function" true (.objV 0 true [] []) true).proto
          = true ∧
        (ClassCandidate.mk "function" true (.objV 0 true [] []) true).protoConstructorEq
          = true)) :=
  ⟨fun _ => rfl, isClassDefinition_amended ⟨"function", true, .objV 0 true [] [], true⟩
    (fun _ => rfl)⟩

/-- C10: when the input string is strictly longer than the target length
(with target ≥ 1), the `while` loop of `padLeft` never runs and the
truncation `str.substring(str.length - targetLength, str.length - 1)`
(src/GLUtil.ts:279-281) keeps the characters from position
`length - targetLength` up to but excluding the final one — a result one
character shorter than the requested target.  The same truncation applies
when a multi-character pad overshoots the target, as in the concrete
conjunct: padding `"a"` to length 4 with `"xyzwv"` gives `"xyzwva"`
(length 6) and then `substring(2, 5) = "zwv"`, again of length
`targetLength - 1`. -/
theorem padLeft_truncates (str padWith : List Char) (targetLength : Nat)
    (h1 : 1 ≤ targetLength) (h2 : targetLength < str.length) :
    (padLeft str targetLength padWith
        = some ((str.drop (str.length - targetLength)).take (targetLength - 1)) ∧
      ((str.drop (str.length - targetLength)).take (targetLength - 1)).length
        = targetLength - 1) ∧
    padLeft ['a'] 4 ['x', 'y', 'z', 'w', 'v'] = some ['z', 'w', 'v'] := by
  refine ⟨⟨?_, ?_⟩, by decide⟩
  · have hloop : padLoop padWith targetLength (targetLength + 1) str = some str := by
      rw [padLoop]
      simp [Nat.not_lt.mpr (Nat.le_of_lt h2)]
    rw [padLeft, hloop]
    simp only [Option.map_some']
    rw [if_pos h2, jsSubstring]
    have ha : min (str.length - targetLength) str.length
        = str.length - targetLength := by omega
    have hb : min (str.length - 1) str.length = str.length - 1 := by omega
    simp only [ha, hb]
    rw [if_pos (by omega : str.length - targetLength ≤ str.length - 1)]
    have harith : str.length - 1 - (str.length - targetLength) = targetLength - 1 := by
      omega
    rw [List.drop_take, harith]
  · rw [List.length_take, List.length_drop]
    omega

/-- Witness for C10 at `"abcde"`, target length 3, pad `"z"`: the result
is `"cd"`, of length 2. -/
theorem padLeft_truncates_witness :
    (1 ≤ 3 ∧ 3 < ([ 'a', 'b', 'c', 'd', 'e' ] : List Char).length) ∧
    ((padLeft ['a', 'b', 'c', 'd', 'e'] 3 ['z']
        = some ((['a', 'b', 'c', 'd', 'e'].drop
            (['a', 'b', 'c', 'd', 'e'].length - 3)).take (3 - 1)) ∧
      ((['a', 'b', 'c', 'd', 'e'].drop
          (['a', 'b', 'c', 'd', 'e'].length - 3)).take (3 - 1)).length = 3 - 1) ∧
     padLeft ['a'] 4 ['x', 'y', 'z', 'w', 'v'] = some ['z', 'w', 'v']) :=
  ⟨⟨by decide, by decide⟩,
    padLeft_truncates ['a', 'b', 'c', 'd', 'e'] ['z'] 3 (by decide) (by decide)⟩

end GLUtil
